import Mathlib

/-!
Verification of the starter_story_analysis repository core.

Shallow embedding of:
  - scripts/reconstruct_diarization.py : normalize_label,
    build_segments_from_words, build_segments_from_utterances
  - transcribe_videos.py : the retry loop skeleton shared by download_audio
    and the upload and create-transcript helpers, the transcript poller,
    the startup filesystem reconciliation of the index, and the per-job
    orchestration of main().

Python strings are modelled as Lean Strings whose operations are
re-implemented by structural recursion on the underlying character list,
so that every definition evaluates inside the kernel.  The Python string
methods strip, lower, startswith and isdigit are Unicode aware; the
embeddings below cover the ASCII behaviour, which is the only behaviour
any claim touches.  Python float delays are modelled as rationals.
-/

/-! ## Python string primitives -/

/-- Whitespace characters removed by the Python strip method
(ASCII subset; Python also strips other Unicode space characters,
which no claim involves). -/
def isSpaceChar (c : Char) : Bool := c = ' ' ∨ c = '\t' ∨ c = '\n' ∨ c = '\r'

/-- Remove leading and trailing whitespace from a character list. -/
def trimChars (l : List Char) : List Char :=
  ((l.dropWhile isSpaceChar).reverse.dropWhile isSpaceChar).reverse

/-- Python str.strip(). -/
def pyStrip (s : String) : String := ⟨trimChars s.data⟩

/-- Python str.lower() on the character list (ASCII letters). -/
def lowerChars (l : List Char) : List Char := l.map Char.toLower

/-- Python str.startswith on character lists. -/
def startsWithChars (p l : List Char) : Bool := List.isPrefixOf p l

/-- Numeric value of a digit list, as produced by the Python int()
constructor on a string of decimal digits. -/
def digitsVal (l : List Char) : Nat := l.foldl (fun a c => 10 * a + (c.toNat - 48)) 0

/-- Python int applied to the concatenation of the digit characters of a
label: int of the empty string raises ValueError, modelled as none. -/
def pyIntOfDigits (l : List Char) : Option Nat :=
  if l = [] then none else some (digitsVal l)

/-- Python chr.  chr raises ValueError above 0x10FFFF (modelled as none,
which the caller catches).  Code points in the surrogate range are valid
arguments of chr in Python but are not representable as Lean characters;
Char.ofNat maps them to NUL.  No claim involves code points above 90. -/
def pyChr (n : Nat) : Option String :=
  if n ≤ 1114111 then some ⟨[Char.ofNat n]⟩ else none

/-! ## normalize_label (scripts/reconstruct_diarization.py, lines 95-113)

Python source, with lab a string (the non-string branch returning
str(lab) is outside the String domain of the embedding):

    lab = lab.strip()
    if lab.lower().startswith("speaker"):
        try:
            n = int("".join(ch for ch in lab if ch.isdigit()))
            return chr(ord("A") + n)
        except Exception:
            return lab
    if len(lab) == 1:
        return lab
    return lab

The two trailing returns both return the stripped label, so they are one
else branch here. -/

def normalize_label (lab : String) : String :=
  let lab := pyStrip lab
  if startsWithChars "speaker".data (lowerChars lab.data) then
    match pyIntOfDigits (lab.data.filter Char.isDigit) with
    | some n =>
      match pyChr (65 + n) with
      | some s => s
      | none => lab
    | none => lab
  else lab

/-! Spec-side vocabulary for claim C7, following the words of the spec:
the (n+1)-th uppercase letter of the alphabet. -/

/-- The uppercase alphabet, as the spec enumerates it. -/
def uppercaseAlphabet : List Char :=
  ['A', 'B', 'C', 'D', 'E', 'F', 'G', 'H', 'I', 'J', 'K', 'L', 'M',
   'N', 'O', 'P', 'Q', 'R', 'S', 'T', 'U', 'V', 'W', 'X', 'Y', 'Z']

/-- The (n+1)-th uppercase letter of the alphabet as a one-character
string, for n below 26. -/
def nthUppercaseLetter (n : Nat) : String := ⟨[uppercaseAlphabet.getD n 'A']⟩

/-- The stripped label starts with speaker, case-insensitively. -/
def speakerShaped (lab : String) : Bool :=
  startsWithChars "speaker".data (lowerChars (pyStrip lab).data)

/-- The integer Python extracts from the digit characters of the
stripped label, if any. -/
def labelDigits (lab : String) : Option Nat :=
  pyIntOfDigits ((pyStrip lab).data.filter Char.isDigit)

theorem charOfNat_letter (n : Nat) (h : n ≤ 25) :
    Char.ofNat (65 + n) = uppercaseAlphabet.getD n 'A' := by
  interval_cases n <;> rfl

/-- Claim C7 counterexample: the claim states that a label that is
neither speaker-shaped nor a single character passes through unchanged,
but normalize_label strips surrounding whitespace from every label; that
a speaker label with number n maps to the (n+1)-th uppercase letter of
the alphabet, but for n = 26 the result is the bracket character, which
is not an uppercase letter; and labels with non-contiguous digits, which
the claim leaves unchanged, are normalized from the concatenation of all
their digits. -/
theorem normalize_label_claim_false :
    (normalize_label " A " = "A" ∧ " A " ≠ "A")
      ∧ (normalize_label "Speaker 26" = "[" ∧
          ∀ c ∈ uppercaseAlphabet, (⟨[c]⟩ : String) ≠ "[")
      ∧ (normalize_label "speaker 1 2" = "M" ∧ "speaker 1 2" ≠ "M") := by
  refine ⟨⟨by decide, by decide⟩, ⟨by decide, by decide⟩, by decide, by decide⟩

/-- Claim C7 (amended): normalize_label first strips surrounding
whitespace from the label.  If the stripped label starts with speaker
case-insensitively, the integer n formed by concatenating every digit
character of the stripped label (the digits need not be contiguous or
final) selects the result chr(65 + n), which is the (n+1)-th uppercase
letter of the alphabet whenever n is at most 25; if the label has no
digit at all the stripped label is returned.  Every other label,
single-character or not, is returned stripped but otherwise unchanged. -/
theorem normalize_label_spec (lab : String) (n : Nat) :
    (speakerShaped lab = true → labelDigits lab = some n → n ≤ 25 →
        normalize_label lab = nthUppercaseLetter n)
      ∧ (speakerShaped lab = true → labelDigits lab = none →
        normalize_label lab = pyStrip lab)
      ∧ (speakerShaped lab = false → normalize_label lab = pyStrip lab) := by
  refine ⟨fun hs hd hn => ?_, fun hs hd => ?_, fun hs => ?_⟩
  · have hs2 : startsWithChars "speaker".data (lowerChars (pyStrip lab).data) = true := hs
    have hd2 : pyIntOfDigits ((pyStrip lab).data.filter Char.isDigit) = some n := hd
    have hval : 65 + n ≤ 1114111 := by omega
    simp only [normalize_label, hs2, if_true, hd2, pyChr, if_pos hval,
      nthUppercaseLetter, charOfNat_letter n hn]
  · have hs2 : startsWithChars "speaker".data (lowerChars (pyStrip lab).data) = true := hs
    have hd2 : pyIntOfDigits ((pyStrip lab).data.filter Char.isDigit) = none := hd
    simp only [normalize_label, hs2, if_true, hd2]
  · have hs2 : startsWithChars "speaker".data (lowerChars (pyStrip lab).data) = false := hs
    simp only [normalize_label, hs2, Bool.false_eq_true, if_false]

/-- Claim C7 witness: the amended theorem applied to the label
Speaker 11, which normalizes to the twelfth uppercase letter L. -/
theorem normalize_label_spec_witness :
    (speakerShaped "Speaker 11" = true → labelDigits "Speaker 11" = some 11 →
        11 ≤ 25 → normalize_label "Speaker 11" = nthUppercaseLetter 11)
      ∧ (speakerShaped "Speaker 11" = true → labelDigits "Speaker 11" = none →
        normalize_label "Speaker 11" = pyStrip "Speaker 11")
      ∧ (speakerShaped "Speaker 11" = false →
        normalize_label "Speaker 11" = pyStrip "Speaker 11") :=
  normalize_label_spec "Speaker 11" 11

/-! ## Diarization reconstruction (scripts/reconstruct_diarization.py)

A word entry carries optional speaker, speaker_label, text, start and
end keys; absent keys are none.  Times are integer milliseconds. -/

structure Word where
  speaker : Option String := none
  speaker_label : Option String := none
  text : Option String := none
  start : Option Int := none
  «end» : Option Int := none
deriving DecidableEq

structure Utterance where
  speaker : Option String := none
  speaker_label : Option String := none
  text : Option String := none
  start : Option Int := none
  «end» : Option Int := none
deriving DecidableEq

/-- One reconstructed segment. -/
structure Segment where
  speaker : String
  text : String
  start : Option Int := none
  «end» : Option Int := none
deriving DecidableEq

/-- Python x or y for an optional string x: both None and the empty
string are falsy and fall through to y. -/
def pyOrS (a : Option String) (b : String) : String :=
  match a with
  | some s => if s = "" then b else s
  | none => b

/-- Speaker of a word entry: the speaker key, else the speaker_label
key, else UNKNOWN (Python or-chain over dict.get results). -/
def wordSpeaker (w : Word) : String := pyOrS w.speaker (pyOrS w.speaker_label "UNKNOWN")

/-- Text of a word entry: w.get with default the empty string. -/
def wordText (w : Word) : String := w.text.getD ""

/-- Sort key: x.get of the start key with default 0. -/
def wordStartKey (w : Word) : Int := w.start.getD 0

/-- Python sorted(words, key) is a stable sort; List.mergeSort is the
stable sort of the core library. -/
def sortWordsByStart (ws : List Word) : List Word :=
  ws.mergeSort (fun a b => wordStartKey a ≤ wordStartKey b)

/-- The space-join of the accumulated word texts, Python str.join with
a single-space separator. -/
def joinSpace : List String → String
  | [] => ""
  | [t] => t
  | t :: ts => t ++ " " ++ joinSpace ts

/-- The scanning loop of build_segments_from_words (lines 49-67).  The
state is the Python loop state: the list of closed segments, the
current speaker, the accumulated word texts, and the current start and
end times.  The final open segment is closed when the input ends; the
Python cur_speaker-is-None case is the initialisation performed by the
callers below. -/
def buildWordsGo (segments : List Segment) (curSpeaker : String)
    (curWords : List String) (curStart curEnd : Option Int) :
    List Word → List Segment
  | [] => segments ++ [⟨curSpeaker, joinSpace curWords, curStart, curEnd⟩]
  | w :: rest =>
    let sp := wordSpeaker w
    if sp = curSpeaker then
      buildWordsGo segments curSpeaker (curWords ++ [wordText w]) curStart w.«end» rest
    else
      buildWordsGo (segments ++ [⟨curSpeaker, joinSpace curWords, curStart, curEnd⟩])
        sp [wordText w] w.start w.«end» rest

/-- build_segments_from_words: empty input yields no segments,
otherwise scan the start-sorted words (lines 39-68). -/
def build_segments_from_words (words : List Word) : List Segment :=
  match sortWordsByStart words with
  | [] => []
  | w :: rest => buildWordsGo [] (wordSpeaker w) [wordText w] w.start w.«end» rest

/-- build_segments_from_utterances (lines 24-36): empty input yields no
segments, otherwise one segment per utterance in start order. -/
def build_segments_from_utterances (utts : List Utterance) : List Segment :=
  match utts with
  | [] => []
  | _ :: _ =>
    (utts.mergeSort (fun a b => a.start.getD 0 ≤ b.start.getD 0)).map
      (fun u => ⟨pyOrS u.speaker (pyOrS u.speaker_label "UNKNOWN"), pyOrS u.text "", u.start, u.«end»⟩)

/-! Spec-side formulation of the word grouping, following the words of
the spec: sort by start time, split into maximal runs of consecutive
entries with the same speaker label, and emit one segment per run. -/

/-- Two word entries carry the same speaker label. -/
def sameSpeaker (a b : Word) : Bool := wordSpeaker a = wordSpeaker b

/-- Prepend an element to a run decomposition: extend the first run
when the element relates to its head, otherwise open a new run. -/
def runsGlue (f : α → α → Bool) (a : α) : List (List α) → List (List α)
  | [] => [[a]]
  | [] :: rs => [a] :: [] :: rs
  | (b :: r) :: rs => if f a b then (a :: b :: r) :: rs else [a] :: (b :: r) :: rs

/-- Maximal runs of consecutive elements pairwise related by f. -/
def consecRuns (f : α → α → Bool) : List α → List (List α)
  | [] => []
  | a :: as => runsGlue f a (consecRuns f as)

/-- The segment a run of words denotes: the speaker of the run, the
texts joined by single spaces, the start of the first word and the end
of the last. -/
def segmentOfRun : List Word → Segment
  | [] => ⟨"", "", none, none⟩
  | w :: rest => ⟨wordSpeaker w, joinSpace ((w :: rest).map wordText), w.start, (rest.getLastD w).«end»⟩

/-- Spec-level word reconstruction. -/
def buildWordsSpec (words : List Word) : List Segment :=
  (consecRuns sameSpeaker (sortWordsByStart words)).map segmentOfRun

theorem consecRuns_cons (f : α → α → Bool) (a : α) (l : List α) :
    ∃ r rs, consecRuns f (a :: l) = (a :: r) :: rs := by
  cases h : consecRuns f l with
  | nil => exact ⟨[], [], by simp [consecRuns, runsGlue, h]⟩
  | cons g gs =>
    cases g with
    | nil => exact ⟨[], [] :: gs, by simp [consecRuns, runsGlue, h]⟩
    | cons b r =>
      by_cases hf : f a b
      · exact ⟨b :: r, gs, by simp [consecRuns, runsGlue, h, hf]⟩
      · exact ⟨[], (b :: r) :: gs, by simp [consecRuns, runsGlue, h, hf]⟩

theorem consecRuns_same (w : Word) (l : List Word)
    (h : ∀ u ∈ l, wordSpeaker u = wordSpeaker w) :
    consecRuns sameSpeaker (w :: l) = [w :: l] := by
  induction l generalizing w with
  | nil => rfl
  | cons v t ih =>
    have hv : wordSpeaker v = wordSpeaker w := h v (by simp)
    have hrec : consecRuns sameSpeaker (v :: t) = [v :: t] :=
      ih v (fun u hu => (h u (by simp [hu])).trans hv.symm)
    show runsGlue sameSpeaker w (consecRuns sameSpeaker (v :: t)) = [w :: v :: t]
    rw [hrec]
    simp [runsGlue, sameSpeaker, hv]

theorem consecRuns_break (v : Word) (l : List Word) (w : Word) (run : List Word)
    (h : ∀ u ∈ run, wordSpeaker u = wordSpeaker w)
    (hv : ¬ wordSpeaker v = wordSpeaker w) :
    consecRuns sameSpeaker ((w :: run) ++ v :: l)
      = (w :: run) :: consecRuns sameSpeaker (v :: l) := by
  induction run generalizing w with
  | nil =>
    obtain ⟨r, rs, hr⟩ := consecRuns_cons sameSpeaker v l
    have hwv : ¬ wordSpeaker w = wordSpeaker v := fun he => hv he.symm
    show runsGlue sameSpeaker w (consecRuns sameSpeaker (v :: l)) = [w] :: consecRuns sameSpeaker (v :: l)
    rw [hr]
    simp [runsGlue, sameSpeaker, hwv]
  | cons u t ih =>
    have hu : wordSpeaker u = wordSpeaker w := h u (by simp)
    have hrec := ih u (fun x hx => (h x (by simp [hx])).trans hu.symm)
      (by rw [hu]; exact hv)
    simp only [List.cons_append] at hrec
    show runsGlue sameSpeaker w (consecRuns sameSpeaker (u :: (t ++ v :: l)))
      = (w :: u :: t) :: consecRuns sameSpeaker (v :: l)
    rw [hrec]
    simp [runsGlue, sameSpeaker, hu]

theorem buildWordsGo_append (l : List Word) (segs : List Segment) (sp : String)
    (cw : List String) (cs ce : Option Int) :
    buildWordsGo segs sp cw cs ce l = segs ++ buildWordsGo [] sp cw cs ce l := by
  induction l generalizing segs sp cw cs ce with
  | nil => simp [buildWordsGo]
  | cons w t ih =>
    by_cases h : wordSpeaker w = sp
    · simp only [buildWordsGo, h, if_pos]
      rw [ih]
    · simp only [buildWordsGo, h, if_neg, not_false_iff, List.nil_append]
      rw [ih, ih [⟨sp, joinSpace cw, cs, ce⟩], List.append_assoc]

theorem getLastD_concat (l : List α) (a d : α) : (l ++ [a]).getLastD d = a := by
  induction l generalizing d with
  | nil => rfl
  | cons b t ih =>
    simp only [List.cons_append, List.getLastD_cons, ih]

theorem buildWordsGo_runs (l : List Word) (w : Word) (run : List Word)
    (h : ∀ u ∈ run, wordSpeaker u = wordSpeaker w) :
    buildWordsGo [] (wordSpeaker w) ((w :: run).map wordText) w.start ((run.getLastD w)).«end» l
      = (consecRuns sameSpeaker ((w :: run) ++ l)).map segmentOfRun := by
  induction l generalizing w run with
  | nil =>
    rw [List.append_nil, consecRuns_same w run h]
    simp [buildWordsGo, segmentOfRun]
  | cons v t ih =>
    by_cases hv : wordSpeaker v = wordSpeaker w
    · have h2 : ∀ u ∈ run ++ [v], wordSpeaker u = wordSpeaker w := by
        intro u hu
        rcases List.mem_append.mp hu with h1 | h1
        · exact h u h1
        · simp only [List.mem_singleton] at h1; subst h1; exact hv
      have hih := ih w (run ++ [v]) h2
      rw [getLastD_concat] at hih
      simp only [buildWordsGo]
      rw [if_pos hv]
      simp only [List.map_cons, List.map_append, List.map_nil, List.cons_append,
        List.append_assoc, List.singleton_append] at hih ⊢
      exact hih
    · have hih := ih v [] (by intro u hu; cases hu)
      simp only [List.map_cons, List.map_nil, List.getLastD_nil,
        List.singleton_append] at hih
      simp only [buildWordsGo]
      rw [if_neg hv, List.nil_append, buildWordsGo_append,
        consecRuns_break v t w run h hv, hih]
      simp [segmentOfRun]

/-- Shared characterization: the scanning loop equals the run-based
spec formulation. -/
theorem build_eq_runs (words : List Word) :
    build_segments_from_words words
      = (consecRuns sameSpeaker (sortWordsByStart words)).map segmentOfRun := by
  unfold build_segments_from_words
  cases hs : sortWordsByStart words with
  | nil => rfl
  | cons w rest =>
    have := buildWordsGo_runs rest w [] (by intro u hu; cases hu)
    simpa using this

theorem sortWordsByStart_pairwise (ws : List Word) :
    List.Pairwise (fun a b => wordStartKey a ≤ wordStartKey b) (sortWordsByStart ws) := by
  have h := @List.sorted_mergeSort Word
    (fun a b : Word => decide (wordStartKey a ≤ wordStartKey b))
    (by intro a b c hab hbc
        simp only [decide_eq_true_eq] at *
        omega)
    (by intro a b
        simp only [Bool.or_eq_true, decide_eq_true_eq]
        omega)
    ws
  exact h.imp (fun hd => by simpa using hd)

/-- Claim C8: word-level reconstruction sorts the entries by start time
ascending, groups maximal runs of consecutive entries with the same
speaker label into one segment whose text is the run texts joined by
single spaces and whose start and end are the first start and last end
of the run; empty word and utterance lists yield zero segments. -/
theorem build_segments_from_words_correct (words : List Word) :
    build_segments_from_words words = buildWordsSpec words
      ∧ List.Pairwise (fun a b => wordStartKey a ≤ wordStartKey b) (sortWordsByStart words)
      ∧ build_segments_from_words [] = []
      ∧ build_segments_from_utterances [] = [] :=
  ⟨build_eq_runs words, sortWordsByStart_pairwise words,
    by simp [build_segments_from_words, sortWordsByStart, List.mergeSort_nil], rfl⟩

/-! Claim C10: adjacent segments never share a speaker label, and the
segment speakers are exactly the sorted word speakers with consecutive
repetitions collapsed, so boundaries and speaker changes coincide. -/

/-- Collapse consecutive repetitions of a list of labels: the sequence
of distinct speaker turns in the sorted word stream. -/
def dropReps : List String → List String
  | [] => []
  | [a] => [a]
  | a :: b :: l => if a = b then dropReps (b :: l) else a :: dropReps (b :: l)

theorem dropReps_head (t : List String) (b : String) :
    ∃ t2, dropReps (b :: t) = b :: t2 := by
  induction t generalizing b with
  | nil => exact ⟨[], rfl⟩
  | cons c t2 ih =>
    by_cases h : b = c
    · obtain ⟨t3, h3⟩ := ih c
      subst h
      exact ⟨t3, by simpa [dropReps] using h3⟩
    · exact ⟨dropReps (c :: t2), by simp [dropReps, h]⟩

theorem dropReps_chain (l : List String) :
    List.Chain' (fun a b => a ≠ b) (dropReps l) := by
  induction l with
  | nil => simp [dropReps]
  | cons a t ih =>
    cases t with
    | nil => simp [dropReps]
    | cons b t2 =>
      by_cases h : a = b
      · simpa [dropReps, h] using ih
      · obtain ⟨t3, h3⟩ := dropReps_head t2 b
        have : List.Chain' (fun a b => a ≠ b) (a :: dropReps (b :: t2)) := by
          rw [h3]
          rw [h3] at ih
          exact List.Chain'.cons h ih
        simpa [dropReps, h] using this

theorem consecRuns_speakers (l : List Word) (w : Word) :
    (consecRuns sameSpeaker (w :: l)).map (fun r => (segmentOfRun r).speaker)
      = dropReps (wordSpeaker w :: l.map wordSpeaker) := by
  induction l generalizing w with
  | nil => rfl
  | cons v t ih =>
    obtain ⟨r, rs, hr⟩ := consecRuns_cons sameSpeaker v t
    have hihv := ih v
    rw [hr] at hihv
    show (runsGlue sameSpeaker w (consecRuns sameSpeaker (v :: t))).map
        (fun r => (segmentOfRun r).speaker)
      = dropReps (wordSpeaker w :: wordSpeaker v :: t.map wordSpeaker)
    rw [hr]
    by_cases hv : wordSpeaker w = wordSpeaker v
    · simp only [runsGlue]
      rw [if_pos (by simp [sameSpeaker, hv] : sameSpeaker w v = true)]
      simp only [dropReps]
      rw [if_pos hv, ← hihv]
      simp [segmentOfRun, hv]
    · simp only [runsGlue]
      rw [if_neg (by simp [sameSpeaker, hv] : ¬ sameSpeaker w v = true)]
      simp only [dropReps]
      rw [if_neg hv, ← hihv]
      simp [segmentOfRun]

/-- Claim C10: in the output of word-level reconstruction no two
consecutive segments carry the same pre-normalization speaker label,
and the segment speakers are the sorted word speakers with consecutive
repetitions collapsed: every speaker change in the sorted word stream
produces a segment boundary and vice versa. -/
theorem build_segments_no_adjacent_repeat (words : List Word) :
    (build_segments_from_words words).map Segment.speaker
        = dropReps ((sortWordsByStart words).map wordSpeaker)
      ∧ List.Chain' (fun a b => a ≠ b)
        ((build_segments_from_words words).map Segment.speaker) := by
  have heq : (build_segments_from_words words).map Segment.speaker
      = dropReps ((sortWordsByStart words).map wordSpeaker) := by
    rw [build_eq_runs]
    cases hs : sortWordsByStart words with
    | nil => rfl
    | cons w rest =>
      rw [List.map_map]
      exact consecRuns_speakers rest w
  exact ⟨heq, heq ▸ dropReps_chain _⟩

/-! ## Retry/backoff executor (transcribe_videos.py)

The loop pattern shared verbatim by download_audio (lines 99-116),
_upload_file (lines 180-195) and _create_transcript (lines 204-218):

    attempt = 0
    while attempt < retries:
        try:
            attempt += 1
            return op(attempt)
        except Exception as exc:
            if attempt >= retries:
                raise
            time.sleep(backoff * (2 ** (attempt - 1)))

op is the body of the try block, returning a value or raising, modelled
as Except with a string error message.  When retries is 0 the while
loop never runs and Python falls off the end of the function returning
None, modelled as a none result.  Delays are Python floats scaled by
powers of two, modelled exactly as rationals. -/

structure RetryRun (α : Type) where
  result : Option (Except String α)
  sleeps : List ℚ
  attempts : Nat

/-- The retry while-loop, entered with the given attempt counter. -/
def retryGo (op : Nat → Except String α) (retries : Nat) (backoff : ℚ)
    (attempt : Nat) : RetryRun α :=
  if h : attempt < retries then
    match op (attempt + 1) with
    | Except.ok v => ⟨some (Except.ok v), [], 1⟩
    | Except.error e =>
      if retries ≤ attempt + 1 then ⟨some (Except.error e), [], 1⟩
      else
        let r := retryGo op retries backoff (attempt + 1)
        ⟨r.result, backoff * 2 ^ attempt :: r.sleeps, r.attempts + 1⟩
  else ⟨none, [], 0⟩
termination_by retries - attempt
decreasing_by simp_wf; omega

/-- The retry executor: run the loop from attempt 0. -/
def retryLoop (op : Nat → Except String α) (retries : Nat) (backoff : ℚ) : RetryRun α :=
  retryGo op retries backoff 0

theorem consMapRangeShift (B : ℚ) (a m : Nat) :
    B * 2 ^ a :: (List.range m).map (fun k => B * 2 ^ (a + 1 + k))
      = (List.range (m + 1)).map (fun k => B * 2 ^ (a + k)) := by
  rw [List.range_succ_eq_map]
  simp only [List.map_cons, List.map_map, Nat.add_zero]
  congr 1
  refine List.map_congr_left ?_
  intro k _
  simp only [Function.comp_apply]
  have he : a + 1 + k = a + Nat.succ k := by omega
  rw [he]

theorem retryGo_sleeps (op : Nat → Except String α) (B : ℚ) :
    ∀ d a, (retryGo op (a + d) B a).sleeps
        = (List.range ((retryGo op (a + d) B a).attempts - 1)).map (fun k => B * 2 ^ (a + k))
      ∧ (retryGo op (a + d) B a).attempts ≤ d
      ∧ (0 < d → 0 < (retryGo op (a + d) B a).attempts) := by
  intro d
  induction d with
  | zero =>
    intro a
    rw [retryGo]
    simp
  | succ d ih =>
    intro a
    rw [retryGo]
    have hlt : a < a + (d + 1) := by omega
    rw [dif_pos hlt]
    cases hop : op (a + 1) with
    | ok v => simp
    | error e =>
      dsimp only
      by_cases hfin : a + (d + 1) ≤ a + 1
      · rw [if_pos hfin]
        simp
      · rw [if_neg hfin]
        have hd1 : 0 < d := by omega
        have harg : a + (d + 1) = (a + 1) + d := by omega
        have ihh := ih (a + 1)
        rw [← harg] at ihh
        obtain ⟨hs, hle, hpos⟩ := ihh
        have hpos2 := hpos hd1
        refine ⟨?_, by simp; omega, by simp⟩
        simp only [hs]
        obtain ⟨m, hm⟩ : ∃ m, (retryGo op (a + (d + 1)) B (a + 1)).attempts = m + 1 :=
          ⟨_, (Nat.succ_pred_eq_of_pos hpos2).symm⟩
        rw [hm]
        simp only [Nat.add_sub_cancel]
        exact consMapRangeShift B a m

theorem retryGo_allfail (op : Nat → Except String α) (err : Nat → String) (B : ℚ)
    (hop : ∀ i, op i = Except.error (err i)) :
    ∀ d a, 0 < d → retryGo op (a + d) B a
      = ⟨some (Except.error (err (a + d))),
          (List.range (d - 1)).map (fun k => B * 2 ^ (a + k)), d⟩ := by
  intro d
  induction d with
  | zero => intro a h; omega
  | succ d ih =>
    intro a _
    rw [retryGo]
    have hlt : a < a + (d + 1) := by omega
    rw [dif_pos hlt, hop (a + 1)]
    dsimp only
    by_cases hfin : a + (d + 1) ≤ a + 1
    · rw [if_pos hfin]
      have hd0 : d = 0 := by omega
      subst hd0
      simp
    · rw [if_neg hfin]
      have hd1 : 0 < d := by omega
      have harg : a + (d + 1) = (a + 1) + d := by omega
      have ihh := ih (a + 1) hd1
      rw [← harg] at ihh
      rw [ihh]
      obtain ⟨m, hm⟩ : ∃ m, d = m + 1 := ⟨d - 1, by omega⟩
      subst hm
      simp only [Nat.add_sub_cancel]
      rw [consMapRangeShift B a m]

/-- Claim C4: for an operation wrapped by the retry executor with at
most N attempts and base delay B, position k of the sleep list (k from
0, so before the (k+1)-th retry) holds exactly B * 2 ^ k, giving the
delays B, 2B, 4B and so on; at most N attempts are made; and when every
attempt fails, exactly N attempts are made, the N-1 inter-attempt
delays are B, 2B, ..., B * 2 ^ (N-2), and the error of the final, N-th
attempt is propagated to the caller. -/
theorem retry_backoff_correct (op : Nat → Except String α) (err : Nat → String)
    (N : Nat) (B : ℚ) (h1 : 1 ≤ N) :
    (retryLoop op N B).attempts ≤ N
      ∧ (retryLoop op N B).sleeps
          = (List.range ((retryLoop op N B).attempts - 1)).map (fun k => B * 2 ^ k)
      ∧ ((∀ i, op i = Except.error (err i)) →
          (retryLoop op N B).result = some (Except.error (err N))
            ∧ (retryLoop op N B).attempts = N
            ∧ (retryLoop op N B).sleeps = (List.range (N - 1)).map (fun k => B * 2 ^ k)) := by
  have h0 := retryGo_sleeps op B N 0
  simp only [Nat.zero_add] at h0
  obtain ⟨hs, hle, _⟩ := h0
  refine ⟨hle, by simpa using hs, fun hop => ?_⟩
  have ha := retryGo_allfail op err B hop N 0
  simp only [Nat.zero_add] at ha
  have ha2 := ha (by omega)
  unfold retryLoop
  rw [ha2]
  simp

/-- An always-failing operation, used by the claim C4 witness. -/
def failOp : Nat → Except String Unit := fun _ => Except.error "boom"

/-- The error names of failOp. -/
def failErr : Nat → String := fun _ => "boom"

/-- Claim C4 witness: an operation that always fails, three attempts,
base delay 2. -/
theorem retry_backoff_correct_witness :
    (retryLoop failOp 3 2).attempts ≤ 3
      ∧ (retryLoop failOp 3 2).sleeps
          = (List.range ((retryLoop failOp 3 2).attempts - 1)).map (fun k => (2 : ℚ) * 2 ^ k)
      ∧ ((∀ i, failOp i = Except.error (failErr i)) →
          (retryLoop failOp 3 2).result = some (Except.error (failErr 3))
            ∧ (retryLoop failOp 3 2).attempts = 3
            ∧ (retryLoop failOp 3 2).sleeps = (List.range (3 - 1)).map (fun k => (2 : ℚ) * 2 ^ k)) :=
  retry_backoff_correct failOp failErr 3 2 (by omega)

/-! ## Transcription poller (_poll_transcript, transcribe_videos.py lines 220-238)

    attempt = 0
    sleep_time = interval
    while attempt < MAX_POLL_TRIES:
        j = query()
        if j.status == "completed": return j
        if j.status == "failed": raise RuntimeError("Transcription failed: " + j)
        attempt += 1
        sleep_time = min(interval * (BACKOFF_FACTOR ** attempt), MAX_BACKOFF)
        time.sleep(sleep_time)
    raise RuntimeError("Max polling attempts (N) exceeded for transcript tid")

The remote is modelled as a function from the query number (0-based) to
the response; a response carries its status string and, abstractly, the
rest of the JSON payload. -/

structure PollResp where
  status : String
  body : String
deriving DecidableEq

inductive PollOutcome where
  | completed : PollResp → PollOutcome
  | remoteFailed : PollResp → PollOutcome
  | timedOut : Nat → PollOutcome
deriving DecidableEq

structure PollRun where
  outcome : PollOutcome
  sleeps : List ℚ
deriving DecidableEq

/-- Python min of two floats, as the poller computes the capped delay. -/
def pyMin (a b : ℚ) : ℚ := if a ≤ b then a else b

theorem pyMin_eq_min (a b : ℚ) : pyMin a b = min a b := by
  simp [pyMin, min_def]

/-- The polling while-loop, entered with the given attempt counter. -/
def pollGo (resp : Nat → PollResp) (maxTries : Nat) (interval factor maxDelay : ℚ)
    (attempt : Nat) : PollRun :=
  if h : attempt < maxTries then
    let j := resp attempt
    if j.status = "completed" then ⟨PollOutcome.completed j, []⟩
    else if j.status = "failed" then ⟨PollOutcome.remoteFailed j, []⟩
    else
      let r := pollGo resp maxTries interval factor maxDelay (attempt + 1)
      ⟨r.outcome, pyMin (interval * factor ^ (attempt + 1)) maxDelay :: r.sleeps⟩
  else ⟨PollOutcome.timedOut maxTries, []⟩
termination_by maxTries - attempt
decreasing_by simp_wf; omega

/-- The poller: run the loop from attempt 0. -/
def _poll_transcript (resp : Nat → PollResp) (maxTries : Nat)
    (interval factor maxDelay : ℚ) : PollRun :=
  pollGo resp maxTries interval factor maxDelay 0

/-- A response status that ends the polling loop neither way. -/
def nonTerminalResp (j : PollResp) : Prop :=
  j.status ≠ "completed" ∧ j.status ≠ "failed"

/-- The message of the RuntimeError raised on remote failure; the body
stands for the serialized response payload interpolated after the
prefix. -/
def remoteFailureMessage (j : PollResp) : String :=
  "Transcription failed: " ++ j.body

/-- The message of the RuntimeError raised when the maximum poll count
is exhausted. -/
def timeoutMessage (maxTries : Nat) (tid : String) : String :=
  "Max polling attempts (" ++ toString maxTries ++ ") exceeded for transcript " ++ tid

theorem pollGo_sleeps_get (resp : Nat → PollResp) (I F M : ℚ) :
    ∀ d a k, k < (pollGo resp (a + d) I F M a).sleeps.length →
      (pollGo resp (a + d) I F M a).sleeps.get? k
        = some (pyMin (I * F ^ (a + k + 1)) M) := by
  intro d
  induction d with
  | zero =>
    intro a k hk
    rw [pollGo] at hk
    simp at hk
  | succ d ih =>
    intro a k hk
    have hlt : a < a + (d + 1) := by omega
    rw [pollGo] at hk ⊢
    rw [dif_pos hlt] at hk ⊢
    by_cases hc : (resp a).status = "completed"
    · rw [if_pos hc] at hk; simp at hk
    · rw [if_neg hc] at hk ⊢
      by_cases hf : (resp a).status = "failed"
      · rw [if_pos hf] at hk; simp at hk
      · rw [if_neg hf] at hk ⊢
        dsimp only at hk ⊢
        have harg : a + (d + 1) = (a + 1) + d := by omega
        cases k with
        | zero => rfl
        | succ m =>
          simp only [List.length_cons] at hk
          have hm : m < (pollGo resp (a + (d + 1)) I F M (a + 1)).sleeps.length := by
            omega
          rw [harg] at hm ⊢
          have := ih (a + 1) m hm
          simp only [List.get?_cons_succ]
          rw [this]
          have he : a + 1 + m + 1 = a + (m + 1) + 1 := by omega
          rw [he]

theorem pollGo_timeout (resp : Nat → PollResp) (I F M : ℚ) :
    ∀ d a, (∀ i, a ≤ i → i < a + d → nonTerminalResp (resp i)) →
      (pollGo resp (a + d) I F M a).outcome = PollOutcome.timedOut (a + d) := by
  intro d
  induction d with
  | zero =>
    intro a _
    rw [pollGo]
    simp
  | succ d ih =>
    intro a h
    have hlt : a < a + (d + 1) := by omega
    obtain ⟨hc, hf⟩ := h a (le_refl a) hlt
    rw [pollGo, dif_pos hlt, if_neg hc, if_neg hf]
    dsimp only
    have harg : a + (d + 1) = (a + 1) + d := by omega
    rw [harg]
    exact ih (a + 1) (fun i h1 h2 => h i (by omega) (by omega))

theorem pollGo_completed (resp : Nat → PollResp) (I F M : ℚ) :
    ∀ d a i, a ≤ i → i < a + d → (resp i).status = "completed" →
      (∀ l, a ≤ l → l < i → nonTerminalResp (resp l)) →
      (pollGo resp (a + d) I F M a).outcome = PollOutcome.completed (resp i) := by
  intro d
  induction d with
  | zero => intro a i h1 h2; omega
  | succ d ih =>
    intro a i h1 h2 hst hprior
    have hlt : a < a + (d + 1) := by omega
    rw [pollGo, dif_pos hlt]
    by_cases hia : i = a
    · subst hia
      rw [if_pos hst]
    · obtain ⟨hc, hf⟩ := hprior a (le_refl a) (by omega)
      rw [if_neg hc, if_neg hf]
      dsimp only
      have harg : a + (d + 1) = (a + 1) + d := by omega
      rw [harg]
      exact ih (a + 1) i (by omega) (by omega) hst
        (fun l hl1 hl2 => hprior l (by omega) hl2)

theorem pollGo_failed (resp : Nat → PollResp) (I F M : ℚ) :
    ∀ d a i, a ≤ i → i < a + d → (resp i).status = "failed" →
      (∀ l, a ≤ l → l < i → nonTerminalResp (resp l)) →
      (pollGo resp (a + d) I F M a).outcome = PollOutcome.remoteFailed (resp i) := by
  intro d
  induction d with
  | zero => intro a i h1 h2; omega
  | succ d ih =>
    intro a i h1 h2 hst hprior
    have hlt : a < a + (d + 1) := by omega
    rw [pollGo, dif_pos hlt]
    by_cases hia : i = a
    · subst hia
      have hc : ¬ (resp i).status = "completed" := by
        rw [hst]; decide
      rw [if_neg hc, if_pos hst]
    · obtain ⟨hc, hf⟩ := hprior a (le_refl a) (by omega)
      rw [if_neg hc, if_neg hf]
      dsimp only
      have harg : a + (d + 1) = (a + 1) + d := by omega
      rw [harg]
      exact ih (a + 1) i (by omega) (by omega) hst
        (fun l hl1 hl2 => hprior l (by omega) hl2)

theorem pollGo_completed_inv (resp : Nat → PollResp) (I F M : ℚ) :
    ∀ d a j, (pollGo resp (a + d) I F M a).outcome = PollOutcome.completed j →
      j.status = "completed" := by
  intro d
  induction d with
  | zero =>
    intro a j h
    rw [pollGo] at h
    simp at h
  | succ d ih =>
    intro a j h
    have hlt : a < a + (d + 1) := by omega
    rw [pollGo, dif_pos hlt] at h
    by_cases hc : (resp a).status = "completed"
    · rw [if_pos hc] at h
      dsimp only at h
      cases h
      exact hc
    · rw [if_neg hc] at h
      by_cases hf : (resp a).status = "failed"
      · rw [if_pos hf] at h
        dsimp only at h
        cases h
      · rw [if_neg hf] at h
        dsimp only at h
        have harg : a + (d + 1) = (a + 1) + d := by omega
        rw [harg] at h
        exact ih (a + 1) j h

theorem pollGo_failed_inv (resp : Nat → PollResp) (I F M : ℚ) :
    ∀ d a j, (pollGo resp (a + d) I F M a).outcome = PollOutcome.remoteFailed j →
      j.status = "failed" := by
  intro d
  induction d with
  | zero =>
    intro a j h
    rw [pollGo] at h
    simp at h
  | succ d ih =>
    intro a j h
    have hlt : a < a + (d + 1) := by omega
    rw [pollGo, dif_pos hlt] at h
    by_cases hc : (resp a).status = "completed"
    · rw [if_pos hc] at h
      dsimp only at h
      cases h
    · rw [if_neg hc] at h
      by_cases hf : (resp a).status = "failed"
      · rw [if_pos hf] at h
        dsimp only at h
        cases h
        exact hf
      · rw [if_neg hf] at h
        dsimp only at h
        have harg : a + (d + 1) = (a + 1) + d := by omega
        rw [harg] at h
        exact ih (a + 1) j h

theorem poll_messages_distinct_aux (j : PollResp) (n : Nat) (tid : String) :
    remoteFailureMessage j ≠ timeoutMessage n tid := by
  intro h
  have hd := congrArg String.data h
  simp only [remoteFailureMessage, timeoutMessage, String.data_append] at hd
  simp only [List.cons_append, List.cons.injEq] at hd
  exact absurd hd.1 (by decide)

/-- Claim C5: the delay slept after the a-th non-terminal status query
(a counted from 1, so list position a-1) is exactly min(I * F ^ a, M),
and for a non-negative interval and a factor at least 1 the delay
sequence is non-decreasing. -/
theorem poll_backoff_correct (resp : Nat → PollResp) (maxTries : Nat) (I F M : ℚ) :
    (∀ k, k < (_poll_transcript resp maxTries I F M).sleeps.length →
        (_poll_transcript resp maxTries I F M).sleeps.get? k
          = some (min (I * F ^ (k + 1)) M))
      ∧ (0 ≤ I → 1 ≤ F →
        List.Chain' (fun x y => x ≤ y) (_poll_transcript resp maxTries I F M).sleeps) := by
  have hbase : ∀ k, k < (_poll_transcript resp maxTries I F M).sleeps.length →
      (_poll_transcript resp maxTries I F M).sleeps.get? k
        = some (pyMin (I * F ^ (k + 1)) M) := by
    intro k hk
    have := pollGo_sleeps_get resp I F M maxTries 0 k (by simpa [_poll_transcript] using hk)
    simpa [_poll_transcript] using this
  constructor
  · intro k hk
    rw [hbase k hk, pyMin_eq_min]
  · intro hI hF
    rw [List.chain'_iff_get]
    intro i hi
    have hlen1 : i < (_poll_transcript resp maxTries I F M).sleeps.length := by omega
    have hlen2 : i + 1 < (_poll_transcript resp maxTries I F M).sleeps.length := by omega
    have g1 := hbase i hlen1
    have g2 := hbase (i + 1) hlen2
    rw [List.get?_eq_get hlen1] at g1
    rw [List.get?_eq_get hlen2] at g2
    have e1 := Option.some.inj g1
    have e2 := Option.some.inj g2
    rw [e1, e2, pyMin_eq_min, pyMin_eq_min]
    refine min_le_min ?_ (le_refl M)
    exact mul_le_mul_of_nonneg_left (pow_le_pow_right hF (by omega)) hI

/-- A remote that always reports a processing status, for the claim C5
witness. -/
def pollRespBusy : Nat → PollResp := fun _ => ⟨"processing", ""⟩

/-- Claim C5 witness: three polls of an always-processing remote with
interval 5, factor 2 and cap 60. -/
theorem poll_backoff_correct_witness :
    (∀ k, k < (_poll_transcript pollRespBusy 3 5 2 60).sleeps.length →
        (_poll_transcript pollRespBusy 3 5 2 60).sleeps.get? k
          = some (min ((5 : ℚ) * 2 ^ (k + 1)) 60))
      ∧ ((0 : ℚ) ≤ 5 → (1 : ℚ) ≤ 2 →
        List.Chain' (fun x y => x ≤ y) (_poll_transcript pollRespBusy 3 5 2 60).sleeps) :=
  poll_backoff_correct pollRespBusy 3 5 2 60

/-- Claim C6: the poller returns the full response exactly when a query
reports status completed (and only payloads whose status is completed
are ever returned); a query reporting status failed raises the remote
failure error; exhausting the maximum poll count with no terminal
status raises the timeout error; and the timeout error message is
always distinct from the remote-failure error message. -/
theorem poll_outcomes_correct (resp : Nat → PollResp) (maxTries : Nat)
    (I F M : ℚ) (tid : String) :
    ((∀ i, i < maxTries → nonTerminalResp (resp i)) →
        (_poll_transcript resp maxTries I F M).outcome = PollOutcome.timedOut maxTries)
      ∧ (∀ i, i < maxTries → (resp i).status = "completed" →
          (∀ l, l < i → nonTerminalResp (resp l)) →
          (_poll_transcript resp maxTries I F M).outcome = PollOutcome.completed (resp i))
      ∧ (∀ i, i < maxTries → (resp i).status = "failed" →
          (∀ l, l < i → nonTerminalResp (resp l)) →
          (_poll_transcript resp maxTries I F M).outcome = PollOutcome.remoteFailed (resp i))
      ∧ (∀ j, (_poll_transcript resp maxTries I F M).outcome = PollOutcome.completed j →
          j.status = "completed")
      ∧ (∀ j, (_poll_transcript resp maxTries I F M).outcome = PollOutcome.remoteFailed j →
          j.status = "failed")
      ∧ (∀ j n, remoteFailureMessage j ≠ timeoutMessage n tid) := by
  refine ⟨?_, ?_, ?_, ?_, ?_, fun j n => poll_messages_distinct_aux j n tid⟩
  · intro h
    have h0 := pollGo_timeout resp I F M maxTries 0 (fun i h1 h2 => h i (by omega))
    rw [Nat.zero_add] at h0
    exact h0
  · intro i hi hst hprior
    have h0 := pollGo_completed resp I F M maxTries 0 i (by omega) (by omega) hst
      (fun l h1 h2 => hprior l h2)
    rw [Nat.zero_add] at h0
    exact h0
  · intro i hi hst hprior
    have h0 := pollGo_failed resp I F M maxTries 0 i (by omega) (by omega) hst
      (fun l h1 h2 => hprior l h2)
    rw [Nat.zero_add] at h0
    exact h0
  · intro j h
    have h0 : (pollGo resp (0 + maxTries) I F M 0).outcome = PollOutcome.completed j := by
      rw [Nat.zero_add]; exact h
    exact pollGo_completed_inv resp I F M maxTries 0 j h0
  · intro j h
    have h0 : (pollGo resp (0 + maxTries) I F M 0).outcome = PollOutcome.remoteFailed j := by
      rw [Nat.zero_add]; exact h
    exact pollGo_failed_inv resp I F M maxTries 0 j h0

/-- A remote that reports completed on the first query, for the claim
C6 witness. -/
def pollRespDone : Nat → PollResp := fun _ => ⟨"completed", "payload"⟩

/-- Claim C6 witness: the outcome characterization at a remote that
completes immediately, two polls allowed. -/
theorem poll_outcomes_correct_witness :
    ((∀ i, i < 2 → nonTerminalResp (pollRespDone i)) →
        (_poll_transcript pollRespDone 2 5 2 60).outcome = PollOutcome.timedOut 2)
      ∧ (∀ i, i < 2 → (pollRespDone i).status = "completed" →
          (∀ l, l < i → nonTerminalResp (pollRespDone l)) →
          (_poll_transcript pollRespDone 2 5 2 60).outcome
            = PollOutcome.completed (pollRespDone i))
      ∧ (∀ i, i < 2 → (pollRespDone i).status = "failed" →
          (∀ l, l < i → nonTerminalResp (pollRespDone l)) →
          (_poll_transcript pollRespDone 2 5 2 60).outcome
            = PollOutcome.remoteFailed (pollRespDone i))
      ∧ (∀ j, (_poll_transcript pollRespDone 2 5 2 60).outcome = PollOutcome.completed j →
          j.status = "completed")
      ∧ (∀ j, (_poll_transcript pollRespDone 2 5 2 60).outcome = PollOutcome.remoteFailed j →
          j.status = "failed")
      ∧ (∀ j n, remoteFailureMessage j ≠ timeoutMessage n "tid0") :=
  poll_outcomes_correct pollRespDone 2 5 2 60 "tid0"

/-! ## The job index (transcribe_videos.py, main)

An index entry is a JSON object with optional string-valued keys (plus
the integer duration); an absent key is none.  The nested
transcript_files object is flattened into its two keys.  The index
itself is a key-to-entry mapping with Python dict semantics, modelled
as an association list: lookup finds the first matching key,
assignment replaces it in place or appends. -/

structure Entry where
  status : Option String := none
  url : Option String := none
  title : Option String := none
  duration : Option Int := none
  created_at : Option String := none
  transcribed_at : Option String := none
  last_error : Option String := none
  audio_file : Option String := none
  transcript_file : Option String := none
  transcript_path : Option String := none
  transcript_files_raw : Option String := none
  transcript_files_conversation : Option String := none
deriving DecidableEq

abbrev Index := List (String × Entry)

def idxGet : Index → String → Option Entry
  | [], _ => none
  | p :: rest, k => if p.1 = k then some p.2 else idxGet rest k

def idxSet : Index → String → Entry → Index
  | [], k, e => [(k, e)]
  | p :: rest, k, e => if p.1 = k then (k, e) :: rest else p :: idxSet rest k e

/-- The entry stored under a key, or the fresh empty dict the code
creates when the key is absent. -/
def entryAt (idx : Index) (k : String) : Entry := (idxGet idx k).getD {}

/-- Python dict.setdefault on an optional field. -/
def setdefault (o : Option String) (v : String) : Option String :=
  match o with
  | some s => some s
  | none => some v

theorem idxGet_set_self (idx : Index) (k : String) (e : Entry) :
    idxGet (idxSet idx k e) k = some e := by
  induction idx with
  | nil => simp [idxSet, idxGet]
  | cons p rest ih =>
    by_cases h : p.1 = k
    · simp [idxSet, idxGet, h]
    · simp [idxSet, idxGet, h, ih]

theorem idxGet_set_other (idx : Index) (k : String) (e : Entry) (k2 : String)
    (h : ¬ k2 = k) :
    idxGet (idxSet idx k e) k2 = idxGet idx k2 := by
  induction idx with
  | nil =>
    simp only [idxSet, idxGet]
    rw [if_neg (show ¬ k = k2 from fun he => h he.symm)]
  | cons p rest ih =>
    by_cases hp : p.1 = k
    · simp only [idxSet, if_pos hp, idxGet]
      rw [if_neg (fun he => h he.symm), if_neg (by rw [hp]; exact fun he => h he.symm)]
    · simp only [idxSet, if_neg hp, idxGet]
      by_cases hk2 : p.1 = k2
      · rw [if_pos hk2, if_pos hk2]
      · rw [if_neg hk2, if_neg hk2, ih]

theorem setdefault_of_isSome (o : Option String) (v : String)
    (h : o.isSome = true) : setdefault o v = o := by
  cases o with
  | none => simp at h
  | some s => rfl

/-! ## Startup reconciliation (main, lines 265-307)

The scan walks the transcripts directory.  A subdirectory named key
contributes its path, the raw and conversation files found inside by
the exact-name globs, and, when a raw file is present, an unconditional
completed status.  A flat .json file whose stem ends in _raw fills the
raw transcript file and a set-if-absent completed status under the stem
minus _raw; any other flat .json file fills transcript_file and url
under its stem and unconditionally sets completed.  The index file
itself is skipped by the scan and is not an item. -/

/-- Python str.endswith on the embedded strings. -/
def strEndsWith (suf s : String) : Bool := List.isPrefixOf suf.data.reverse s.data.reverse

/-- Python slicing s[:-n]. -/
def strDropRight (s : String) (n : Nat) : String := ⟨s.data.take (s.data.length - n)⟩

inductive ScanItem where
  | dir (key path : String) (rawFile convFile : Option String)
  | flatJson (stem path : String)
deriving DecidableEq

/-- The index key a scan item is merged under. -/
def itemKey : ScanItem → String
  | ScanItem.dir key _ _ _ => key
  | ScanItem.flatJson stem _ =>
    if strEndsWith "_raw" stem then strDropRight stem 4 else stem

/-- One step of the reconciliation scan. -/
def syncStep (idx : Index) (item : ScanItem) : Index :=
  match item with
  | ScanItem.dir key path rawFile convFile =>
    let entry := entryAt idx key
    let entry := { entry with transcript_path := setdefault entry.transcript_path path }
    let entry :=
      match rawFile with
      | some rawPath =>
        let entry := { entry with
          transcript_files_raw := setdefault entry.transcript_files_raw rawPath }
        let entry :=
          match convFile with
          | some convPath => { entry with
              transcript_files_conversation :=
                setdefault entry.transcript_files_conversation convPath }
          | none => entry
        { entry with status := some "completed" }
      | none => entry
    idxSet idx key entry
  | ScanItem.flatJson stem path =>
    if strEndsWith "_raw" stem then
      let key := strDropRight stem 4
      let entry := entryAt idx key
      let entry := { entry with
        transcript_files_raw := setdefault entry.transcript_files_raw path }
      let entry := { entry with status := setdefault entry.status "completed" }
      idxSet idx key entry
    else
      let key := stem
      let entry := entryAt idx key
      let entry := { entry with transcript_file := setdefault entry.transcript_file path }
      let entry := { entry with url := setdefault entry.url (entry.url.getD "") }
      let entry := { entry with status := some "completed" }
      idxSet idx key entry

/-- The scan cases in which the code overwrites status unconditionally
with completed: a directory containing a raw transcript, and a legacy
flat json transcript. -/
def statusForced : ScanItem → Bool
  | ScanItem.dir _ _ rawFile _ => rawFile.isSome
  | ScanItem.flatJson stem _ => ! strEndsWith "_raw" stem

/-- Spec-side frame condition for one reconciliation step: every field
other than status is set-if-absent (an existing value is never
replaced), and status is set-if-absent except in the statusForced
cases, where it is overwritten with completed. -/
def reconcileFrame (e e2 : Entry) (item : ScanItem) : Prop :=
  (e.transcript_path.isSome = true → e2.transcript_path = e.transcript_path)
    ∧ (e.transcript_files_raw.isSome = true →
        e2.transcript_files_raw = e.transcript_files_raw)
    ∧ (e.transcript_files_conversation.isSome = true →
        e2.transcript_files_conversation = e.transcript_files_conversation)
    ∧ (e.transcript_file.isSome = true → e2.transcript_file = e.transcript_file)
    ∧ (e.url.isSome = true → e2.url = e.url)
    ∧ e2.title = e.title
    ∧ e2.duration = e.duration
    ∧ e2.created_at = e.created_at
    ∧ e2.transcribed_at = e.transcribed_at
    ∧ e2.last_error = e.last_error
    ∧ e2.audio_file = e.audio_file
    ∧ (statusForced item = true → e2.status = some "completed")
    ∧ (statusForced item = false → e.status.isSome = true → e2.status = e.status)

/-- Claim C2 counterexample: a pre-existing entry whose status is the
non-empty value transcript-failed has that value replaced by completed
when the scan finds a per-video directory containing a raw transcript,
so reconciliation does overwrite an existing non-empty field. -/
theorem reconcile_overwrites_status :
    (entryAt (syncStep [("k", { status := some "transcript-failed" })]
          (ScanItem.dir "k" "transcripts/k" (some "transcripts/k/k_raw.json") none)) "k").status
        = some "completed"
      ∧ (entryAt [(("k" : String), ({ status := some "transcript-failed" } : Entry))] "k").status
        = some "transcript-failed"
      ∧ ("transcript-failed" : String) ≠ "completed" := by
  refine ⟨rfl, rfl, by decide⟩

/-- Claim C2 (amended): one reconciliation step touches only the item
key; on that entry every field other than status is set-if-absent (an
existing value is never replaced, only absent fields are filled), and
status too is set-if-absent in the flat raw-file case, but in the
directory-with-raw-file case and the legacy flat json case status is
unconditionally overwritten with completed. -/
theorem reconcile_set_if_absent (idx : Index) (item : ScanItem) :
    (∀ k, ¬ k = itemKey item → idxGet (syncStep idx item) k = idxGet idx k)
      ∧ reconcileFrame (entryAt idx (itemKey item))
          (entryAt (syncStep idx item) (itemKey item)) item := by
  cases item with
  | dir key path rawFile convFile =>
    constructor
    · intro k hk
      simp only [itemKey] at hk
      simp only [syncStep]
      exact idxGet_set_other idx key _ k hk
    · simp only [itemKey, syncStep, entryAt, idxGet_set_self, Option.getD_some]
      cases rawFile with
      | none =>
        refine ⟨fun h => by simp [setdefault_of_isSome _ _ h], fun h => rfl, fun h => rfl,
          fun h => rfl, fun h => rfl, rfl, rfl, rfl, rfl, rfl, rfl, ?_, ?_⟩
        · intro h
          simp [statusForced] at h
        · intro _ _
          rfl
      | some rawPath =>
        cases convFile with
        | none =>
          refine ⟨fun h => by simp [setdefault_of_isSome _ _ h],
            fun h => by simp [setdefault_of_isSome _ _ h], fun h => rfl,
            fun h => rfl, fun h => rfl, rfl, rfl, rfl, rfl, rfl, rfl, fun _ => rfl, ?_⟩
          intro h
          simp [statusForced] at h
        | some convPath =>
          refine ⟨fun h => by simp [setdefault_of_isSome _ _ h],
            fun h => by simp [setdefault_of_isSome _ _ h],
            fun h => by simp [setdefault_of_isSome _ _ h],
            fun h => rfl, fun h => rfl, rfl, rfl, rfl, rfl, rfl, rfl, fun _ => rfl, ?_⟩
          intro h
          simp [statusForced] at h
  | flatJson stem path =>
    by_cases hraw : strEndsWith "_raw" stem = true
    · constructor
      · intro k hk
        simp only [itemKey, if_pos hraw] at hk
        simp only [syncStep, if_pos hraw]
        exact idxGet_set_other idx _ _ k hk
      · simp only [itemKey, if_pos hraw, syncStep, entryAt, idxGet_set_self, Option.getD_some]
        refine ⟨fun h => rfl, fun h => by simp [setdefault_of_isSome _ _ h], fun h => rfl,
          fun h => rfl, fun h => rfl, rfl, rfl, rfl, rfl, rfl, rfl, ?_, ?_⟩
        · intro h
          simp [statusForced, hraw] at h
        · intro _ h
          simp [setdefault_of_isSome _ _ h]
    · constructor
      · intro k hk
        simp only [itemKey, if_neg hraw] at hk
        simp only [syncStep, if_neg hraw]
        exact idxGet_set_other idx _ _ k hk
      · simp only [itemKey, if_neg hraw, syncStep, entryAt, idxGet_set_self, Option.getD_some]
        refine ⟨fun h => rfl, fun h => rfl, fun h => rfl,
          fun h => by simp [setdefault_of_isSome _ _ h], ?_, rfl, rfl, rfl, rfl, rfl, rfl,
          fun _ => rfl, ?_⟩
        · intro h
          cases hu : ((idxGet idx stem).getD {}).url with
          | none => simp [hu] at h
          | some u => simp [setdefault, hu]
        · intro h
          simp [statusForced, hraw] at h

/-- Claim C2 witness: the amended theorem applied to an index holding
an entry with an existing raw transcript path, reconciled against a
directory item carrying both files. -/
theorem reconcile_set_if_absent_witness :
    (∀ k, ¬ k = itemKey (ScanItem.dir "v" "transcripts/v"
          (some "transcripts/v/v_raw.json") (some "transcripts/v/v_conversation.json")) →
        idxGet (syncStep [("v", { transcript_files_raw := some "old_raw.json" })]
            (ScanItem.dir "v" "transcripts/v" (some "transcripts/v/v_raw.json")
              (some "transcripts/v/v_conversation.json"))) k
          = idxGet [("v", { transcript_files_raw := some "old_raw.json" })] k)
      ∧ reconcileFrame
          (entryAt [("v", { transcript_files_raw := some "old_raw.json" })]
            (itemKey (ScanItem.dir "v" "transcripts/v" (some "transcripts/v/v_raw.json")
              (some "transcripts/v/v_conversation.json"))))
          (entryAt (syncStep [("v", { transcript_files_raw := some "old_raw.json" })]
              (ScanItem.dir "v" "transcripts/v" (some "transcripts/v/v_raw.json")
                (some "transcripts/v/v_conversation.json")))
            (itemKey (ScanItem.dir "v" "transcripts/v" (some "transcripts/v/v_raw.json")
              (some "transcripts/v/v_conversation.json"))))
          (ScanItem.dir "v" "transcripts/v" (some "transcripts/v/v_raw.json")
            (some "transcripts/v/v_conversation.json")) :=
  reconcile_set_if_absent [("v", { transcript_files_raw := some "old_raw.json" })]
    (ScanItem.dir "v" "transcripts/v" (some "transcripts/v/v_raw.json")
      (some "transcripts/v/v_conversation.json"))

/-! ## Per-job orchestration (main, lines 324-414)

One iteration of the main loop over one url.  External collaborators
are oracles in a JobEnv: the filesystem existence check, the metadata
fetch result (get_video_metadata swallows its own errors and returns a
dict, so only the title and duration values appear), the outcome of
download_audio and of transcribe_with_assemblyai (value or exception
message), the current timestamp string, and the Path stem function.
The video id derivation of get_video_id (urllib parsing, outside the
specified core) is passed in as the optional vidKey, none standing for
a falsy result.

Python dict aliasing: entry is the very dict stored in the index when
the key was present, so in-place mutations are visible in the index
without an assignment; when the key was absent, mutations reach the
index only at an explicit index[temp_key] = entry site.  writeBack
reproduces this for the paths that end without an explicit assignment.

The trace field records the successive values assigned to the status
key of the entry during the iteration, and the tag field records which
of the five exit paths was taken; both are observational
instrumentation, not state. -/

structure TranscribeOut where
  status : Option String := none
  tid : Option String := none
deriving DecidableEq

structure JobEnv where
  fileExists : String → Bool := fun _ => false
  title : Option String := none
  duration : Option Int := none
  download : Except String String := Except.error ""
  transcribe : Except String TranscribeOut := Except.error ""
  now : String := ""
  audioStem : String → String := fun s => s

inductive PathTag where
  | keySkip | entrySkip | downloadFailed | transcribeFailed | success
deriving DecidableEq

structure JobResult where
  index : Index
  processed : Nat
  trace : List String
  tag : PathTag
deriving DecidableEq

/-- Python truthiness of an optional string: None and the empty string
are falsy. -/
def isTruthyS : Option String → Bool
  | some s => if s = "" then false else true
  | none => false

/-- Python truthiness of an optional integer: None and 0 are falsy. -/
def isTruthyI : Option Int → Bool
  | some n => if n = 0 then false else true
  | none => false

/-- Line 337: vid_key and vid_key in index and
index[vid_key].get("status") == "completed". -/
def keyCompletedB (idx : Index) (vidKey : Option String) : Bool :=
  match vidKey with
  | none => false
  | some k =>
    if k = "" then false
    else
      match idxGet idx k with
      | some e => e.status == some "completed"
      | none => false

def writeBack (idx : Index) (k : String) (e : Entry) (present : Bool) : Index :=
  if present then idxSet idx k e else idx

/-- The transcription stage (lines 386-413): set uploading, run
transcribe_with_assemblyai, then either record the raw transcript path
and the final status from the payload (or completed) with a timestamp,
or record transcript-failed; both branches assign the entry into the
index. -/
def transcribeStep (env : JobEnv) (tempKey audio : String) (idx : Index)
    (processed : Nat) (e : Entry) (trace : List String) : JobResult :=
  let e1 := { e with status := some "uploading" }
  match env.transcribe with
  | Except.error exc =>
    let e2 := { e1 with status := some "transcript-failed",
                        last_error := setdefault e1.last_error exc }
    ⟨idxSet idx tempKey e2, processed,
      trace ++ ["uploading", "transcript-failed"], PathTag.transcribeFailed⟩
  | Except.ok out =>
    let vidName := pyOrS (some tempKey) (pyOrS out.tid (env.audioStem audio))
    let rawPath := "transcripts/" ++ vidName ++ "_raw.json"
    let finStatus := pyOrS out.status "completed"
    let e2 := { e1 with transcript_files_raw := some rawPath,
                        status := some finStatus,
                        transcribed_at := some env.now }
    ⟨idxSet idx tempKey e2, processed + 1,
      trace ++ ["uploading", finStatus], PathTag.success⟩

/-- Lines 341-349: look up or create the entry under temp_key, then
overwrite title and duration when the fetched metadata values are
truthy, and fill url and created_at if absent. -/
def initEntry (env : JobEnv) (url : String) (e0 : Entry) : Entry :=
  let e1 := if isTruthyS env.title then { e0 with title := env.title } else e0
  let e2 := if isTruthyI env.duration then { e1 with duration := env.duration } else e1
  let e3 := { e2 with url := setdefault e2.url url }
  { e3 with created_at := setdefault e3.created_at env.now }

/-- Lines 356-360: a completed record that did not pass the
file-existence check has its status and transcript_file popped. -/
def selfHealEntry (e : Entry) : Entry :=
  if e.status == some "completed" then { e with status := none, transcript_file := none }
  else e

/-- Line 352: completed, with a truthy recorded transcript_file that
exists on disk. -/
def entryCompletedB (env : JobEnv) (e : Entry) : Bool :=
  (e.status == some "completed") && isTruthyS e.transcript_file
    && env.fileExists (e.transcript_file.getD "")

/-- Line 364: a truthy recorded audio_file that exists on disk. -/
def audioReuseB (env : JobEnv) (e : Entry) : Bool :=
  isTruthyS e.audio_file && env.fileExists (e.audio_file.getD "")

/-- One iteration of the job loop (lines 329-414) on one url. -/
def processJob (env : JobEnv) (vidKey : Option String) (url : String)
    (idx : Index) (processed : Nat) : JobResult :=
  if keyCompletedB idx vidKey then
    -- line 337-339: already transcribed under the derived key: skip
    ⟨idx, processed, [], PathTag.keySkip⟩
  else
    let tempKey := pyOrS vidKey url
    let present := (idxGet idx tempKey).isSome
    let e4 := initEntry env url (entryAt idx tempKey)
    if entryCompletedB env e4 then
      -- lines 352-355: completed with existing file: count it and skip
      ⟨writeBack idx tempKey e4 present, processed + 1, [], PathTag.entrySkip⟩
    else
      -- lines 356-360: completed but file missing: clear and reprocess
      let e5 := selfHealEntry e4
      -- download stage (lines 362-383)
      if audioReuseB env e5 then
        transcribeStep env tempKey (e5.audio_file.getD "") idx processed e5 []
      else
        let e6 := { e5 with status := some "downloading" }
        match env.download with
        | Except.error exc =>
          let e7 := { e6 with status := some "audio-download-failed",
                              last_error := setdefault e6.last_error exc }
          ⟨idxSet idx tempKey e7, processed,
            ["downloading", "audio-download-failed"], PathTag.downloadFailed⟩
        | Except.ok audio =>
          let e7 := { e6 with audio_file := some audio, status := some "downloaded" }
          transcribeStep env tempKey audio idx processed e7 ["downloading", "downloaded"]

/-- The main loop over the url list with the MAX_VIDEOS cap (lines
324-328): a cap of 0 means no limit, and the cap is checked against
the processed counter before each job. -/
def mainLoop (envOf : String → JobEnv) (vidOf : String → Option String)
    (maxVideos : Nat) : List String → Index → Nat → Index × Nat
  | [], idx, n => (idx, n)
  | url :: rest, idx, n =>
    if maxVideos ≠ 0 ∧ n ≥ maxVideos then (idx, n)
    else
      let r := processJob (envOf url) (vidOf url) url idx n
      mainLoop envOf vidOf maxVideos rest r.index r.processed

/-- Claim C1 input: an index entry completed under a derivable video
id, an environment in which no file exists. -/
def c1Index : Index := [("vid1", { status := some "completed" })]

def c1Env : JobEnv :=
  { fileExists := fun _ => false,
    download := Except.error "network down",
    transcribe := Except.error "network down" }

/-- Claim C1: the resume policy promises to skip a completed record
only when its artifact file exists and otherwise to clear the record
and reprocess; but the early key-based check of line 337 skips any
record whose status is completed without consulting the filesystem, so
a completed record whose artifact file is gone (here: no file exists
at all and the record stores no transcript_file) is skipped untouched
instead of being cleared and reprocessed.  The run performs no stage
at all (empty status trace), leaves the index unchanged and exits
through the key-based skip. -/
theorem completed_skip_ignores_missing_file :
    processJob c1Env (some "vid1") "https://youtu.be/vid1" c1Index 0
        = ⟨c1Index, 0, [], PathTag.keySkip⟩
      ∧ (entryAt c1Index "vid1").status = some "completed"
      ∧ (entryAt c1Index "vid1").transcript_file = none
      ∧ ∀ s, c1Env.fileExists s = false :=
  ⟨rfl, rfl, rfl, fun _ => rfl⟩

/-! Claim C3: the spec-side state machine, following the words of the
spec (section 4.2).  The state new is the absence of a status; the
polling phase is logically traversed between uploading and the
terminal statuses, so its persisted elisions are included as
transitions, as are the resets of the two resumable failure states
back to new that the resume wording describes. -/

def specStates : List String :=
  ["new", "downloading", "downloaded", "uploading", "polling", "completed",
   "audio-download-failed", "transcript-failed"]

def specTransitions : List (String × String) :=
  [("new", "downloading"), ("downloading", "downloaded"),
   ("downloading", "audio-download-failed"), ("downloaded", "uploading"),
   ("uploading", "polling"), ("polling", "completed"),
   ("polling", "transcript-failed"), ("uploading", "completed"),
   ("uploading", "transcript-failed"),
   ("audio-download-failed", "new"), ("transcript-failed", "new")]

def c3Index : Index :=
  [("vid3", { status := some "transcript-failed", audio_file := some "a.mp3" })]

def c3Env : JobEnv :=
  { fileExists := fun s => s == "a.mp3",
    download := Except.error "unused",
    transcribe := Except.error "server error" }

/-- Claim C3 counterexample: a record stored as transcript-failed whose
audio file still exists is re-run with its status written directly to
uploading (and back to transcript-failed when transcription fails
again); neither a transcript-failed to uploading step nor a new to
uploading step is a transition of the defined state machine, so status
does not advance only along the defined transitions. -/
theorem status_leaves_state_machine :
    (processJob c3Env (some "vid3") "u3" c3Index 0).trace
        = ["uploading", "transcript-failed"]
      ∧ (entryAt c3Index "vid3").status = some "transcript-failed"
      ∧ ("transcript-failed", "uploading") ∉ specTransitions
      ∧ ("new", "uploading") ∉ specTransitions := by
  refine ⟨rfl, rfl, by decide, by decide⟩

/-- The transcription collaborator only hands back payloads whose
status field makes the or-default completed: this is what the poller
guarantees (it returns only responses with status completed), stated
here as a hypothesis on the oracle. -/
def transcribeStatusOk (env : JobEnv) : Prop :=
  ∀ out, env.transcribe = Except.ok out → pyOrS out.status "completed" = "completed"

/-- The six status-write traces one job iteration can produce. -/
def allowedTraces : List (List String) :=
  [[], ["downloading", "audio-download-failed"],
   ["uploading", "completed"], ["uploading", "transcript-failed"],
   ["downloading", "downloaded", "uploading", "completed"],
   ["downloading", "downloaded", "uploading", "transcript-failed"]]

theorem processJob_cases (env : JobEnv) (vidKey : Option String) (url : String)
    (idx : Index) (n : Nat) (hok : transcribeStatusOk env) :
    ((processJob env vidKey url idx n).trace = [] ∧
        (processJob env vidKey url idx n).processed = n ∧
        (processJob env vidKey url idx n).tag = PathTag.keySkip)
      ∨ ((processJob env vidKey url idx n).trace = [] ∧
        (processJob env vidKey url idx n).processed = n + 1 ∧
        (processJob env vidKey url idx n).tag = PathTag.entrySkip)
      ∨ ((processJob env vidKey url idx n).trace = ["downloading", "audio-download-failed"] ∧
        (processJob env vidKey url idx n).processed = n ∧
        (processJob env vidKey url idx n).tag = PathTag.downloadFailed)
      ∨ (((processJob env vidKey url idx n).trace = ["uploading", "transcript-failed"] ∨
          (processJob env vidKey url idx n).trace
            = ["downloading", "downloaded", "uploading", "transcript-failed"]) ∧
        (processJob env vidKey url idx n).processed = n ∧
        (processJob env vidKey url idx n).tag = PathTag.transcribeFailed)
      ∨ (((processJob env vidKey url idx n).trace = ["uploading", "completed"] ∨
          (processJob env vidKey url idx n).trace
            = ["downloading", "downloaded", "uploading", "completed"]) ∧
        (processJob env vidKey url idx n).processed = n + 1 ∧
        (processJob env vidKey url idx n).tag = PathTag.success) := by
  simp only [processJob, transcribeStep]
  split_ifs with h1 h2 h3
  · exact Or.inl ⟨rfl, rfl, rfl⟩
  · exact Or.inr (Or.inl ⟨rfl, rfl, rfl⟩)
  · cases htr : env.transcribe with
    | error exc =>
      exact Or.inr (Or.inr (Or.inr (Or.inl ⟨Or.inl rfl, rfl, rfl⟩)))
    | ok out =>
      have hst := hok out htr
      refine Or.inr (Or.inr (Or.inr (Or.inr ⟨Or.inl ?_, rfl, rfl⟩)))
      show [] ++ ["uploading", pyOrS out.status "completed"] = ["uploading", "completed"]
      simp [hst]
  · cases hdl : env.download with
    | error exc =>
      exact Or.inr (Or.inr (Or.inl ⟨rfl, rfl, rfl⟩))
    | ok audio =>
      cases htr : env.transcribe with
      | error exc =>
        exact Or.inr (Or.inr (Or.inr (Or.inl ⟨Or.inr rfl, rfl, rfl⟩)))
      | ok out =>
        have hst := hok out htr
        refine Or.inr (Or.inr (Or.inr (Or.inr ⟨Or.inr ?_, rfl, rfl⟩)))
        show ["downloading", "downloaded"] ++ ["uploading", pyOrS out.status "completed"]
          = ["downloading", "downloaded", "uploading", "completed"]
        simp [hst]

/-- Claim C3 (amended): on well-typed inputs, the statuses one job
iteration writes form one of six traces, each drawn from the six
values downloading, downloaded, uploading, completed,
audio-download-failed and transcript-failed (new is only ever the
absence of a status and polling is never persisted), and within a
trace the writes follow the machine; however, a re-run may enter at
downloading, or directly at uploading when a recorded audio file
exists, from whatever status the record previously held, without
passing through new. -/
theorem status_trace_spec (env : JobEnv) (vidKey : Option String) (url : String)
    (idx : Index) (n : Nat) (hok : transcribeStatusOk env) :
    (processJob env vidKey url idx n).trace ∈ allowedTraces := by
  rcases processJob_cases env vidKey url idx n hok with
    ⟨h, _, _⟩ | ⟨h, _, _⟩ | ⟨h, _, _⟩ | ⟨h | h, _, _⟩ | ⟨h | h, _, _⟩ <;>
    rw [h] <;> simp [allowedTraces]

/-- Claim C3 witness: the trace theorem at the concrete failing-remote
environment and index of the counterexample. -/
theorem status_trace_spec_witness :
    (processJob c3Env (some "vid3") "u3" c3Index 0).trace ∈ allowedTraces :=
  status_trace_spec c3Env (some "vid3") "u3" c3Index 0
    (by intro out h; simp [c3Env] at h)

/-- Claim C9 input: a completed entry with an existing transcript file
under a key that get_video_id cannot derive from the url. -/
def c9Index : Index := [("u1", { status := some "completed", transcript_file := some "t.json" })]

def c9Env : JobEnv := { fileExists := fun s => s == "t.json" }

/-- Claim C9 counterexample: a job skipped because it is already
completed (the entry-based check of line 352 fires: status completed,
transcript file present on disk, nothing is run, the trace is empty)
nevertheless increments the processed counter that the MAX_VIDEOS cap
is compared against, so an already-completed job does consume the cap
budget. -/
theorem completed_entry_skip_consumes_cap :
    (processJob c9Env none "u1" c9Index 0).tag = PathTag.entrySkip
      ∧ (processJob c9Env none "u1" c9Index 0).processed = 1
      ∧ (processJob c9Env none "u1" c9Index 0).trace = []
      ∧ (entryAt c9Index "u1").status = some "completed" :=
  ⟨rfl, rfl, rfl, rfl⟩

theorem processJob_tag_cases (env : JobEnv) (vidKey : Option String) (url : String)
    (idx : Index) (n : Nat) :
    ((processJob env vidKey url idx n).tag = PathTag.keySkip ∧
        (processJob env vidKey url idx n).processed = n)
      ∨ ((processJob env vidKey url idx n).tag = PathTag.entrySkip ∧
        (processJob env vidKey url idx n).processed = n + 1)
      ∨ ((processJob env vidKey url idx n).tag = PathTag.downloadFailed ∧
        (processJob env vidKey url idx n).processed = n)
      ∨ ((processJob env vidKey url idx n).tag = PathTag.transcribeFailed ∧
        (processJob env vidKey url idx n).processed = n)
      ∨ ((processJob env vidKey url idx n).tag = PathTag.success ∧
        (processJob env vidKey url idx n).processed = n + 1) := by
  simp only [processJob, transcribeStep]
  split_ifs with h1 h2 h3
  · exact Or.inl ⟨rfl, rfl⟩
  · exact Or.inr (Or.inl ⟨rfl, rfl⟩)
  · cases htr : env.transcribe with
    | error exc => exact Or.inr (Or.inr (Or.inr (Or.inl ⟨rfl, rfl⟩)))
    | ok out => exact Or.inr (Or.inr (Or.inr (Or.inr ⟨rfl, rfl⟩)))
  · cases hdl : env.download with
    | error exc => exact Or.inr (Or.inr (Or.inl ⟨rfl, rfl⟩))
    | ok audio =>
      cases htr : env.transcribe with
      | error exc => exact Or.inr (Or.inr (Or.inr (Or.inl ⟨rfl, rfl⟩)))
      | ok out => exact Or.inr (Or.inr (Or.inr (Or.inr ⟨rfl, rfl⟩)))

theorem processJob_keySkip (env : JobEnv) (vidKey : Option String) (url : String)
    (idx : Index) (n : Nat) (h : keyCompletedB idx vidKey = true) :
    processJob env vidKey url idx n = ⟨idx, n, [], PathTag.keySkip⟩ := by
  simp only [processJob, if_pos h]

theorem mainLoop_all_completed (envOf : String → JobEnv) (vidOf : String → Option String)
    (maxVideos : Nat) :
    ∀ urls (idx : Index) (m : Nat),
      (∀ u ∈ urls, keyCompletedB idx (vidOf u) = true) →
      mainLoop envOf vidOf maxVideos urls idx m = (idx, m) := by
  intro urls
  induction urls with
  | nil => intro idx m _; rfl
  | cons u rest ih =>
    intro idx m h
    unfold mainLoop
    by_cases hcap : maxVideos ≠ 0 ∧ m ≥ maxVideos
    · rw [if_pos hcap]
    · rw [if_neg hcap]
      dsimp only
      rw [processJob_keySkip (envOf u) (vidOf u) u idx m (h u (by simp))]
      exact ih idx m (fun v hv => h v (by simp [hv]))

/-- Claim C9 (amended): the key-based completed skip of line 337 does
not touch the processed counter, and neither do the two failure exits;
but the entry-based completed skip of lines 352-355 increments the
counter just like a successful run, so a job skipped through that path
does consume the MAX_VIDEOS cap budget.  A run whose whole input list
is skippable through the key-based check processes nothing and leaves
the counter and index unchanged, whatever the cap. -/
theorem processed_counter_spec (env : JobEnv) (vidKey : Option String) (url : String)
    (idx : Index) (n : Nat) (envOf : String → JobEnv) (vidOf : String → Option String)
    (maxVideos : Nat) (urls : List String) (idx2 : Index) (m : Nat) :
    ((processJob env vidKey url idx n).tag = PathTag.keySkip →
        (processJob env vidKey url idx n).processed = n)
      ∧ ((processJob env vidKey url idx n).tag = PathTag.entrySkip →
        (processJob env vidKey url idx n).processed = n + 1)
      ∧ ((processJob env vidKey url idx n).tag = PathTag.downloadFailed →
        (processJob env vidKey url idx n).processed = n)
      ∧ ((processJob env vidKey url idx n).tag = PathTag.transcribeFailed →
        (processJob env vidKey url idx n).processed = n)
      ∧ ((processJob env vidKey url idx n).tag = PathTag.success →
        (processJob env vidKey url idx n).processed = n + 1)
      ∧ ((∀ u ∈ urls, keyCompletedB idx2 (vidOf u) = true) →
        mainLoop envOf vidOf maxVideos urls idx2 m = (idx2, m)) := by
  refine ⟨?_, ?_, ?_, ?_, ?_, mainLoop_all_completed envOf vidOf maxVideos urls idx2 m⟩ <;>
    intro h <;>
    rcases processJob_tag_cases env vidKey url idx n with
      ⟨ht, hp⟩ | ⟨ht, hp⟩ | ⟨ht, hp⟩ | ⟨ht, hp⟩ | ⟨ht, hp⟩ <;>
    first
      | exact hp
      | (rw [ht] at h; simp at h)

/-- Claim C9 witness: the counter characterization at the
entry-skipped completed job of the counterexample, with a singleton
url list that is key-skippable over a matching index. -/
theorem processed_counter_spec_witness :
    ((processJob c9Env none "u1" c9Index 0).tag = PathTag.keySkip →
        (processJob c9Env none "u1" c9Index 0).processed = 0)
      ∧ ((processJob c9Env none "u1" c9Index 0).tag = PathTag.entrySkip →
        (processJob c9Env none "u1" c9Index 0).processed = 0 + 1)
      ∧ ((processJob c9Env none "u1" c9Index 0).tag = PathTag.downloadFailed →
        (processJob c9Env none "u1" c9Index 0).processed = 0)
      ∧ ((processJob c9Env none "u1" c9Index 0).tag = PathTag.transcribeFailed →
        (processJob c9Env none "u1" c9Index 0).processed = 0)
      ∧ ((processJob c9Env none "u1" c9Index 0).tag = PathTag.success →
        (processJob c9Env none "u1" c9Index 0).processed = 0 + 1)
      ∧ ((∀ u ∈ ["vid1"], keyCompletedB c1Index ((fun _ => some "vid1") u) = true) →
        mainLoop (fun _ => c1Env) (fun _ => some "vid1") 1 ["vid1"] c1Index 0
          = (c1Index, 0)) :=
  processed_counter_spec c9Env none "u1" c9Index 0 (fun _ => c1Env)
    (fun _ => some "vid1") 1 ["vid1"] c1Index 0
